import Mathlib

/-!
Verification of the prompt-lab streaming/variable/classifier core.

Shallow embedding of:
- src/services/apiService.ts : OpenAIAPIService.streamCompletion, processStream,
  stopGeneration, isGenerating (stream engine, abort handle, HTTP error path);
- src/store/useAppStore.ts : detectVariables, processTextWithVariables,
  setSystemPrompt, updateMessage (content path), pushOutputToMessages
  (detectContentType, isPushableContent, getFinalMessageType).

Machine conventions: the JS numbers of the engine are embedded exactly by
integer recodings — the token count in quarter tokens (every value the
float takes is a quarter-integer) and the reported rate in hundredths (the
integer Math.round produces).  Time (Date.now) is embedded as an oracle
giving the elapsed integer milliseconds at the i-th read after the stream
start.  Byte chunks are embedded as already-decoded text chunks.
-/

/-- JSON values, the image of JSON.parse.  Object fields keep textual order;
field lookup takes the last binding, matching JS duplicate-key semantics. -/
inductive Json where
  | null : Json
  | bool : Bool → Json
  | num : ℚ → Json
  | str : String → Json
  | arr : List Json → Json
  | obj : List (String × Json) → Json

/-- The left-brace character, written by code point. -/
def lbrace : Char := Char.ofNat 123

/-- The right-brace character, written by code point. -/
def rbrace : Char := Char.ofNat 125

/-- The double-quote character. -/
def qch : Char := Char.ofNat 34

/-- The backslash character. -/
def bsl : Char := Char.ofNat 92

/-- JSON insignificant whitespace (space, tab, line feed, carriage return). -/
def skipWsJ (cs : List Char) : List Char :=
  cs.dropWhile (fun c => c == ' ' || c == Char.ofNat 9 || c == Char.ofNat 10 || c == Char.ofNat 13)

/-- Hexadecimal digit value, if any. -/
def hexVal (c : Char) : Option ℕ :=
  if 48 ≤ c.toNat ∧ c.toNat ≤ 57 then some (c.toNat - 48)
  else if 97 ≤ c.toNat ∧ c.toNat ≤ 102 then some (c.toNat - 87)
  else if 65 ≤ c.toNat ∧ c.toNat ≤ 70 then some (c.toNat - 55)
  else none

/-- Prepend a character to the accumulated string of a partial parse. -/
def consMap (c : Char) (r : Option (List Char × List Char)) : Option (List Char × List Char) :=
  r.map (fun p => (c :: p.1, p.2))

/-- Body of a JSON string literal, after the opening quote; returns the decoded
characters and the input after the closing quote.  Escapes follow JSON. -/
def parseStrBody : ℕ → List Char → Option (List Char × List Char)
  | 0, _ => none
  | _ + 1, [] => none
  | f + 1, c :: cs =>
    if c = qch then some ([], cs)
    else if c = bsl then
      match cs with
      | [] => none
      | e :: cs2 =>
        if e = qch then consMap qch (parseStrBody f cs2)
        else if e = bsl then consMap bsl (parseStrBody f cs2)
        else if e = '/' then consMap '/' (parseStrBody f cs2)
        else if e = 'n' then consMap (Char.ofNat 10) (parseStrBody f cs2)
        else if e = 't' then consMap (Char.ofNat 9) (parseStrBody f cs2)
        else if e = 'r' then consMap (Char.ofNat 13) (parseStrBody f cs2)
        else if e = 'b' then consMap (Char.ofNat 8) (parseStrBody f cs2)
        else if e = 'f' then consMap (Char.ofNat 12) (parseStrBody f cs2)
        else if e = 'u' then
          match cs2 with
          | h1 :: h2 :: h3 :: h4 :: cs3 =>
            match hexVal h1, hexVal h2, hexVal h3, hexVal h4 with
            | some a, some b, some c2, some d =>
              consMap (Char.ofNat (((a * 16 + b) * 16 + c2) * 16 + d)) (parseStrBody f cs3)
            | _, _, _, _ => none
          | _ => none
        else none
    else if c.toNat < 32 then none
    else consMap c (parseStrBody f cs)

/-- Decimal digit value of a character. -/
def digitVal (c : Char) : ℕ := c.toNat - 48

/-- Natural number denoted by a digit run. -/
def natOfDigits (ds : List Char) : ℕ := ds.foldl (fun acc c => acc * 10 + digitVal c) 0

/-- JSON number literal: optional minus, strict integer part (no leading
zeros), optional fraction, optional exponent. -/
def parseNum (cs : List Char) : Option (ℚ × List Char) :=
  let signed : Bool × List Char :=
    match cs with
    | c :: r => if c = '-' then (true, r) else (false, cs)
    | [] => (false, cs)
  let neg := signed.1
  let cs1 := signed.2
  let intPart : Option (ℕ × List Char) :=
    match cs1 with
    | c :: r =>
      if c = '0' then
        match r with
        | d :: _ => if d.isDigit then none else some (0, r)
        | [] => some (0, r)
      else if c.isDigit then
        let ds := (c :: r).takeWhile Char.isDigit
        some (natOfDigits ds, (c :: r).drop ds.length)
      else none
    | [] => none
  match intPart with
  | none => none
  | some (ip, rest1) =>
    let fracPart : Option (ℚ × List Char) :=
      match rest1 with
      | c :: r =>
        if c = '.' then
          let ds := r.takeWhile Char.isDigit
          if ds.isEmpty then none
          else some ((ip : ℚ) + (natOfDigits ds : ℚ) / ((10 : ℚ) ^ ds.length), r.drop ds.length)
        else some ((ip : ℚ), rest1)
      | [] => some ((ip : ℚ), rest1)
    match fracPart with
    | none => none
    | some (v, rest2) =>
      let expPart : Option (ℚ × List Char) :=
        match rest2 with
        | c :: r =>
          if c = 'e' ∨ c = 'E' then
            let esigned : Bool × List Char :=
              match r with
              | d :: r2 => if d = '-' then (true, r2) else if d = '+' then (false, r2) else (false, r)
              | [] => (false, r)
            let ds := esigned.2.takeWhile Char.isDigit
            if ds.isEmpty then none
            else
              let e := natOfDigits ds
              some (if esigned.1 then v / ((10 : ℚ) ^ e) else v * ((10 : ℚ) ^ e), esigned.2.drop ds.length)
          else some (v, rest2)
        | [] => some (v, rest2)
      match expPart with
      | none => none
      | some (v2, rest3) => some (if neg then -v2 else v2, rest3)

mutual

/-- Recursive-descent JSON value parser; the fuel only bounds recursion and is
chosen large enough at the top entry. -/
def parseVal : ℕ → List Char → Option (Json × List Char)
  | 0, _ => none
  | f + 1, cs =>
    match skipWsJ cs with
    | [] => none
    | c :: rest =>
      if c = qch then (parseStrBody (rest.length + 1) rest).map (fun p => (Json.str p.1.asString, p.2))
      else if c = '[' then
        match skipWsJ rest with
        | d :: rest2 =>
          if d = ']' then some (Json.arr [], rest2)
          else (parseArrItems f (d :: rest2)).map (fun p => (Json.arr p.1, p.2))
        | [] => none
      else if c = lbrace then
        match skipWsJ rest with
        | d :: rest2 =>
          if d = rbrace then some (Json.obj [], rest2)
          else (parseObjItems f (d :: rest2)).map (fun p => (Json.obj p.1, p.2))
        | [] => none
      else if "true".data.isPrefixOf (c :: rest) then some (Json.bool true, (c :: rest).drop 4)
      else if "false".data.isPrefixOf (c :: rest) then some (Json.bool false, (c :: rest).drop 5)
      else if "null".data.isPrefixOf (c :: rest) then some (Json.null, (c :: rest).drop 4)
      else
        match parseNum (c :: rest) with
        | some p => some (Json.num p.1, p.2)
        | none => none

/-- One or more comma-separated array items, consuming the closing bracket. -/
def parseArrItems : ℕ → List Char → Option (List Json × List Char)
  | 0, _ => none
  | f + 1, cs =>
    match parseVal f cs with
    | none => none
    | some (v, rest) =>
      match skipWsJ rest with
      | c :: rest2 =>
        if c = ',' then (parseArrItems f rest2).map (fun p => (v :: p.1, p.2))
        else if c = ']' then some ([v], rest2)
        else none
      | [] => none

/-- One or more comma-separated object members, consuming the closing brace. -/
def parseObjItems : ℕ → List Char → Option (List (String × Json) × List Char)
  | 0, _ => none
  | f + 1, cs =>
    match skipWsJ cs with
    | c :: rest =>
      if c = qch then
        match parseStrBody (rest.length + 1) rest with
        | none => none
        | some (key, rest2) =>
          match skipWsJ rest2 with
          | d :: rest3 =>
            if d = ':' then
              match parseVal f rest3 with
              | none => none
              | some (v, rest4) =>
                match skipWsJ rest4 with
                | e :: rest5 =>
                  if e = ',' then (parseObjItems f rest5).map (fun p => ((key.asString, v) :: p.1, p.2))
                  else if e = rbrace then some ([(key.asString, v)], rest5)
                  else none
                | [] => none
            else none
          | [] => none
      else none
    | [] => none

end

/-- JSON.parse: parse a complete value, allowing only trailing whitespace. -/
def jsonParse (s : String) : Option Json :=
  match parseVal (s.length + 1) s.data with
  | some (j, rest) => if (skipWsJ rest).isEmpty then some j else none
  | none => none

/-- JS property access on a parsed value: objects yield the last binding of
the key (JSON.parse keeps the last duplicate), anything else is undefined. -/
def Json.getField : Json → String → Option Json
  | Json.obj kvs, k => ((kvs.filter (fun p => p.1 = k)).getLast?).map (fun p => p.2)
  | _, _ => none

/-- JS index access: arrays yield the element, anything else is undefined. -/
def Json.item : Json → ℕ → Option Json
  | Json.arr xs, i => xs.get? i
  | _, _ => none

/-- JS truthiness of a JSON value. -/
def Json.truthy : Json → Bool
  | Json.null => false
  | Json.bool b => b
  | Json.num q => q ≠ 0
  | Json.str s => !s.isEmpty
  | Json.arr _ => true
  | Json.obj _ => true

/-- Truthiness of an optional-chaining result (undefined is falsy). -/
def truthyOpt : Option Json → Bool
  | some v => v.truthy
  | none => false

/-- Decimal text of a rational; exact for the integers that occur in the
modelled paths (JS decimal formatting of non-integers is not reproduced). -/
def jsNumToString (q : ℚ) : String :=
  if q.den = 1 then toString q.num else toString q

/-- JS String() coercion, with fuel for nested arrays.  Array elements join
with commas, null elements coerce to the empty string inside arrays, and
plain objects coerce to the bracketed object placeholder. -/
def jsToStringF : ℕ → Json → String
  | _, Json.null => "null"
  | _, Json.bool b => if b then "true" else "false"
  | _, Json.num q => jsNumToString q
  | _, Json.str s => s
  | _, Json.obj _ => "[object Object]"
  | 0, Json.arr _ => ""
  | f + 1, Json.arr xs =>
    String.intercalate ","
      (xs.map (fun x => match x with
        | Json.null => ""
        | v => jsToStringF f v))

/-- JS String() coercion of a JSON value; the fuel only bounds nesting and is
passed larger than the nesting depth at every use. -/
def jsToString (fuel : ℕ) (j : Json) : String := jsToStringF fuel j

/-- Indentation of the pretty printer: a run of spaces. -/
def spaces (n : ℕ) : String := String.mk (List.replicate n ' ')

/-- Escape one character for a JSON string literal, as JSON.stringify does. -/
def escapeJsonChar (c : Char) : String :=
  if c = qch then String.mk [bsl, qch]
  else if c = bsl then String.mk [bsl, bsl]
  else if c = Char.ofNat 10 then String.mk [bsl, 'n']
  else if c = Char.ofNat 13 then String.mk [bsl, 'r']
  else if c = Char.ofNat 9 then String.mk [bsl, 't']
  else if c = Char.ofNat 8 then String.mk [bsl, 'b']
  else if c = Char.ofNat 12 then String.mk [bsl, 'f']
  else if c.toNat < 32 then
    String.mk [bsl, 'u', '0', '0',
      (if c.toNat / 16 < 10 then Char.ofNat (48 + c.toNat / 16) else Char.ofNat (87 + c.toNat / 16)),
      (if c.toNat % 16 < 10 then Char.ofNat (48 + c.toNat % 16) else Char.ofNat (87 + c.toNat % 16))]
  else String.mk [c]

/-- JSON string literal text of a string, as JSON.stringify renders it. -/
def escapeJsonString (s : String) : String :=
  "\"" ++ String.join (s.data.map escapeJsonChar) ++ "\""

/-- JSON.stringify(v, null, 2): two-space-indented pretty printing, with fuel
for the recursion into arrays and objects. -/
def stringify2F : ℕ → ℕ → Json → String
  | _, _, Json.null => "null"
  | _, _, Json.bool b => if b then "true" else "false"
  | _, _, Json.num q => jsNumToString q
  | _, _, Json.str s => escapeJsonString s
  | 0, _, Json.arr _ => ""
  | 0, _, Json.obj _ => ""
  | f + 1, ind, Json.arr xs =>
    if xs.isEmpty then "[]"
    else "[\n" ++
      String.intercalate ",\n" (xs.map (fun x => spaces (ind + 2) ++ stringify2F f (ind + 2) x)) ++
      "\n" ++ spaces ind ++ "]"
  | f + 1, ind, Json.obj kvs =>
    if kvs.isEmpty then "\x7b\x7d"
    else "\x7b\n" ++
      String.intercalate ",\n"
        (kvs.map (fun p => spaces (ind + 2) ++ escapeJsonString p.1 ++ ": " ++ stringify2F f (ind + 2) p.2)) ++
      "\n" ++ spaces ind ++ "\x7d"

/-- JSON.stringify(v, null, 2) of a JSON value; the fuel only bounds nesting
and is passed larger than the nesting depth at every use. -/
def stringify2 (fuel : ℕ) (j : Json) : String := stringify2F fuel 0 j

/-- The tokenCount of processStream counted in quarter tokens, exactly: a
content delta adds one token (four quarters), a tool-call delta adds
toolCallText.length / 4 tokens (length quarters).  Every value taken by the
JS float is a quarter-integer, so this integer recoding is exact. -/
abbrev TokenQuarters := ℕ

/-- The JS test tokenCount % 10 === 0 at quarter scale: a quarter-integer is
a multiple of ten exactly when its quarter count is a multiple of forty. -/
def quartersMultipleOfTen (q : TokenQuarters) : Bool := q % 40 == 0

/-- Math.round(tokensPerSecond * 100), the integer numerator of the
two-decimal rate the engine reports, computed exactly: tokensPerSecond is
(q / 4) / (ms / 1000) for q quarter tokens over ms elapsed milliseconds,
and rounding half up gives the floor of (50000 q + ms) / (2 ms).  The
division by a zero ms yields zero here; the engine only evaluates it for a
positive elapsed time or behind the positive-elapsed guard. -/
def rateHundredths (q : TokenQuarters) (ms : ℕ) : ℕ := (50000 * q + ms) / (2 * ms)

/-- Callbacks the stream engine invokes, in invocation order: onStart,
onToken, onMetrics, onComplete, onError.  The metrics payload carries the
reported tokensPerSecond as its exact integer numerator in hundredths
(Math.round of one hundred times the rate) and the total token estimate in
exact quarter tokens. -/
inductive SEvent where
  | start : SEvent
  | token : String → SEvent
  | metrics : ℕ → TokenQuarters → SEvent
  | complete : String → SEvent
  | error : String → SEvent
deriving DecidableEq

/-- Whether an event is a metrics callback. -/
def SEvent.isMetrics : SEvent → Bool
  | SEvent.metrics _ _ => true
  | _ => false

/-- Whether an event is a completion callback. -/
def SEvent.isComplete : SEvent → Bool
  | SEvent.complete _ => true
  | _ => false

/-- Whether an event is an error callback. -/
def SEvent.isError : SEvent → Bool
  | SEvent.error _ => true
  | _ => false

/-- Whether an event is a token callback. -/
def SEvent.isToken : SEvent → Bool
  | SEvent.token _ => true
  | _ => false

/-- An event that is neither a completion nor an error callback. -/
def notCompleteOrError (e : SEvent) : Bool := !(e.isComplete || e.isError)

/-- Mutable locals of processStream: the accumulated response text, the
token-count estimate in exact quarter tokens, and how many times Date.now
has been read since the recorded start time. -/
structure StreamSt where
  fullResponse : String
  tokenQuarters : TokenQuarters
  timeIdx : ℕ
deriving DecidableEq

/-- data.choices?.[0]?.delta?.content of a parsed frame. -/
def contentDelta (j : Json) : Option Json :=
  (((j.getField "choices").bind (fun c => c.item 0)).bind (fun c => c.getField "delta")).bind
    (fun d => d.getField "content")

/-- data.choices?.[0]?.delta?.tool_calls of a parsed frame. -/
def toolCallsDelta (j : Json) : Option Json :=
  (((j.getField "choices").bind (fun c => c.item 0)).bind (fun c => c.getField "delta")).bind
    (fun d => d.getField "tool_calls")

/-- The two delta branches of processStream for one parsed frame: a truthy
content delta appends to fullResponse, counts one token and emits onToken; a
truthy tool-call delta appends its two-space stringification, adds a
quarter-character token estimate, emits onToken, and when the updated count
is a multiple of ten reads Date.now and emits onMetrics with the rounded
tokens-per-second rate.  clk gives the elapsed milliseconds at each
Date.now read; fuel bounds only the JSON stringification nesting. -/
def processData (clk : ℕ → ℕ) (fuel : ℕ) (s : StreamSt) (data : Json) : StreamSt × List SEvent :=
  let p1 : StreamSt × List SEvent :=
    if truthyOpt (contentDelta data) then
      let content := jsToString fuel ((contentDelta data).getD Json.null)
      ({ s with fullResponse := s.fullResponse ++ content, tokenQuarters := s.tokenQuarters + 4 },
       [SEvent.token content])
    else (s, [])
  let s1 := p1.1
  if truthyOpt (toolCallsDelta data) then
    let toolCallText := stringify2 fuel ((toolCallsDelta data).getD Json.null)
    let s2 : StreamSt :=
      { s1 with fullResponse := s1.fullResponse ++ toolCallText,
                tokenQuarters := s1.tokenQuarters + toolCallText.length }
    if quartersMultipleOfTen s2.tokenQuarters then
      ({ s2 with timeIdx := s2.timeIdx + 1 },
       p1.2 ++ [SEvent.token toolCallText,
                SEvent.metrics (rateHundredths s2.tokenQuarters (clk s2.timeIdx)) s2.tokenQuarters])
    else (s2, p1.2 ++ [SEvent.token toolCallText])
  else (s1, p1.2)

/-- Leading and trailing whitespace removed, as JS String.trim does (the
ASCII whitespace that occurs in the modelled streams). -/
def jsTrim (s : String) : String :=
  (((s.data.dropWhile Char.isWhitespace).reverse.dropWhile Char.isWhitespace).reverse).asString

/-- JS String.startsWith. -/
def strStartsWith (s p : String) : Bool := p.data.isPrefixOf s.data

/-- JS String.slice(n) for a nonnegative count of leading characters. -/
def strDropChars (s : String) (n : ℕ) : String := (s.data.drop n).asString

/-- One iteration of the line loop of processStream: trim, skip blank lines,
complete on the DONE sentinel (the Boolean marks the early return), parse
the payload of a data-prefixed line and process its deltas, and skip lines
whose payload fails to parse. -/
def processLine (clk : ℕ → ℕ) (s : StreamSt) (line : String) : StreamSt × List SEvent × Bool :=
  let t := jsTrim line
  if t = "" then (s, [], false)
  else if t = "data: [DONE]" then (s, [SEvent.complete s.fullResponse], true)
  else if strStartsWith t "data: " then
    match jsonParse (strDropChars t 6) with
    | some data =>
      let r := processData clk (t.length + 1) s data
      (r.1, r.2, false)
    | none => (s, [], false)
  else (s, [], false)

/-- The line loop of processStream over the complete lines of one chunk,
stopping at an early return. -/
def processLines (clk : ℕ → ℕ) : StreamSt → List String → StreamSt × List SEvent × Bool
  | s, [] => (s, [], false)
  | s, l :: ls =>
    let r := processLine clk s l
    if r.2.2 then r
    else
      let r2 := processLines clk r.1 ls
      (r2.1, r.2.1 ++ r2.2.1, r2.2.2)

/-- Split on every newline, keeping empty pieces, as JS String.split does. -/
def splitNl : List Char → List (List Char)
  | [] => [[]]
  | c :: r =>
    if c = Char.ofNat 10 then [] :: splitNl r
    else
      match splitNl r with
      | h :: t => (c :: h) :: t
      | [] => [[c]]

/-- The lines of a buffer, as buffer.split of a newline. -/
def splitLines (s : String) : List String := (splitNl s.data).map List.asString

/-- Buffered decode state of processStream: the locals plus the trailing
incomplete line kept between reads. -/
structure ChunkSt where
  st : StreamSt
  buffer : String
deriving DecidableEq

/-- One read iteration of processStream: append the decoded chunk to the
buffer, split into lines, keep the trailing incomplete line, and run the
line loop on the complete lines. -/
def processChunk (clk : ℕ → ℕ) (c : ChunkSt) (chunk : String) : ChunkSt × List SEvent × Bool :=
  let buf := c.buffer ++ chunk
  let lines := splitLines buf
  let buffer2 := (lines.getLast?).getD ""
  let body := lines.dropLast
  let r := processLines clk c.st body
  ({ st := r.1, buffer := buffer2 }, r.2.1, r.2.2)

/-- The read loop of processStream over the decoded chunks, stopping at an
early return. -/
def chunkFold (clk : ℕ → ℕ) : ChunkSt → List String → ChunkSt × List SEvent × Bool
  | c, [] => (c, [], false)
  | c, ch :: chs =>
    let r := processChunk clk c ch
    if r.2.2 then r
    else
      let r2 := chunkFold clk r.1 chs
      (r2.1, r.2.1 ++ r2.2.1, r2.2.2)

/-- Initial processStream state: empty accumulator, zero tokens, empty
buffer, no Date.now reads yet. -/
def initChunkSt : ChunkSt :=
  { st := { fullResponse := "", tokenQuarters := 0, timeIdx := 0 }, buffer := "" }

/-- processStream on a whole stream: run the read loop; when the reader
reports end of stream without the DONE sentinel, read Date.now once, emit a
final onMetrics (zero rate when no time elapsed) and then onComplete with
the full accumulated text. -/
def processStream (clk : ℕ → ℕ) (chunks : List String) : ChunkSt × List SEvent :=
  let r := chunkFold clk initChunkSt chunks
  if r.2.2 then (r.1, r.2.1)
  else
    let elapsed := clk r.1.st.timeIdx
    let tpsHundredths := if 0 < elapsed then rateHundredths r.1.st.tokenQuarters elapsed else 0
    (r.1, r.2.1 ++ [SEvent.metrics tpsHundredths r.1.st.tokenQuarters,
                    SEvent.complete r.1.st.fullResponse])

/-- The error message built for a non-2xx response: the error.message field
of the JSON body when that parses and the field is truthy, the generic
status line when the body parses without a truthy error.message, and the
fallback text injected by the rejected response.json() otherwise. -/
def httpErrorMessage (status : ℕ) (statusText : String) (body : String) : String :=
  let errorData : Json :=
    match jsonParse body with
    | some j => j
    | none => Json.obj [("error", Json.obj [("message", Json.str "Unknown error")])]
  match (errorData.getField "error").bind (fun e => e.getField "message") with
  | some m =>
    if m.truthy then jsToString (body.length + 1) m
    else "HTTP " ++ toString status ++ ": " ++ statusText
  | none => "HTTP " ++ toString status ++ ": " ++ statusText

/-- Outcome of the fetch seen by streamCompletion: a streamed 2xx body, a
2xx body whose read is aborted after a number of chunks, a non-2xx
response, or a 2xx response without a body. -/
inductive FetchOutcome where
  | ok : List String → FetchOutcome
  | okAborted : List String → ℕ → FetchOutcome
  | httpErr : ℕ → String → String → FetchOutcome
  | noBody : FetchOutcome

/-- streamCompletion: onStart, then the fetch outcome.  A streamed body runs
processStream; an aborted read stops at the abort with no further callback,
because the AbortError is recognised in the catch and suppressed; a non-2xx
response and a missing body reach onError through the same catch. -/
def streamCompletionRun (clk : ℕ → ℕ) : FetchOutcome → List SEvent
  | FetchOutcome.ok chunks => SEvent.start :: (processStream clk chunks).2
  | FetchOutcome.okAborted chunks k => SEvent.start :: (chunkFold clk initChunkSt (chunks.take k)).2.1
  | FetchOutcome.httpErr status statusText body =>
    [SEvent.start, SEvent.error (httpErrorMessage status statusText body)]
  | FetchOutcome.noBody => [SEvent.start, SEvent.error "No response body available for streaming"]

/-- The abort-handle state of OpenAIAPIService across its lifetime: the
abort flag of every controller ever created, in creation order, and the
index of the controller currently referenced by this.abortController. -/
structure ApiServiceSt where
  created : List Bool
  current : Option ℕ
deriving DecidableEq

/-- The service before any generation: no controller, null reference. -/
def initApiServiceSt : ApiServiceSt := { created := [], current := none }

/-- The first statement of streamCompletion: this.abortController = new
AbortController().  A fresh unaborted controller is created and the
reference is overwritten; nothing is done to the previous controller. -/
def newAbortController (s : ApiServiceSt) : ApiServiceSt :=
  { created := s.created ++ [false], current := some s.created.length }

/-- stopGeneration: when a controller is referenced, abort it and null the
reference; otherwise do nothing. -/
def stopGeneration (s : ApiServiceSt) : ApiServiceSt :=
  match s.current with
  | some i => { created := s.created.set i true, current := none }
  | none => s

/-- isGenerating: whether this.abortController is non-null. -/
def isGenerating (s : ApiServiceSt) : Bool := s.current.isSome

/-- The number of live handles: controllers created and never aborted. -/
def liveHandleCount (s : ApiServiceSt) : ℕ := (s.created.filter (fun b => b = false)).length

/-- First-seen-order deduplication, the iteration order of a JS Set built
from a spread. -/
def dedupFirst : List String → List String
  | [] => []
  | a :: l => a :: (dedupFirst l).filter (fun b => b ≠ a)

/-- The global scan of detectVariables for the placeholder pattern: two
left braces, one or more non-right-brace characters, two right braces.  On
a failed attempt the scan restarts one character later, as the regex engine
does; on a match it continues after the match.  The fuel only bounds the
number of scan steps and is passed larger than the input length. -/
def scanVars : ℕ → List Char → List (List Char)
  | 0, _ => []
  | _ + 1, [] => []
  | f + 1, c :: cs =>
    if c = lbrace then
      match cs with
      | c2 :: rest =>
        if c2 = lbrace then
          let run := rest.takeWhile (fun x => x ≠ rbrace)
          match rest.drop run.length with
          | d1 :: d2 :: r =>
            if d1 = rbrace ∧ d2 = rbrace ∧ run ≠ [] then run :: scanVars f r
            else scanVars f cs
          | _ => scanVars f cs
        else scanVars f cs
      | [] => []
    else scanVars f cs

/-- detectVariables of useAppStore: match the placeholder pattern globally,
strip the two leading and trailing braces, trim each name, and deduplicate
keeping first occurrences. -/
def detectVariables (text : String) : List String :=
  dedupFirst ((scanVars (text.length + 1) text.data).map (fun r => jsTrim r.asString))

/-- One attempted match, at the start of the input, of the replacement
pattern of processTextWithVariables: two left braces, any whitespace run,
the variable name, any whitespace run, two right braces; returns the input
after the match.  The source interpolates the name into a RegExp, so this
literal-text matcher realises it exactly only on the plain-name domain
(nonempty names of letters, digits and underscores): such characters match
themselves in a regex, never form a metacharacter or an invalid fragment,
and being non-whitespace they make the greedy whitespace runs coincide with
the maximal runs.  Names containing regex metacharacters, where the
interpolated pattern diverges or construction throws, are outside the
modelled domain and no theorem below speaks about them. -/
def matchPlaceholder (k : List Char) (cs : List Char) : Option (List Char) :=
  match cs with
  | c1 :: c2 :: rest =>
    if c1 = lbrace ∧ c2 = lbrace then
      let r1 := rest.dropWhile Char.isWhitespace
      if k.isPrefixOf r1 then
        match (r1.drop k.length).dropWhile Char.isWhitespace with
        | d1 :: d2 :: r2 => if d1 = rbrace ∧ d2 = rbrace then some r2 else none
        | _ => none
      else none
    else none
  | _ => none

/-- The global replace of one variable entry: at each position, splice in
the value at a placeholder match and continue after it, otherwise keep the
character and move on.  As in JS replace, the spliced value is not
rescanned for the same entry.  The splice is literal, which realises the
string-replacement argument of String.replace exactly only for values free
of the dollar character: dollar sequences such as a dollar followed by an
ampersand are interpolated by JS and are outside the modelled domain.  The
fuel only bounds the number of steps and is passed at least the input
length. -/
def replAux (k v : List Char) : ℕ → List Char → List Char
  | 0, cs => cs
  | _ + 1, [] => []
  | f + 1, c :: cs =>
    match matchPlaceholder k (c :: cs) with
    | some rest => v ++ replAux k v f rest
    | none => c :: replAux k v f cs

/-- processed.replace of one entry of processTextWithVariables: replace
every whitespace-tolerant placeholder of the name with the value, on the
plain-name, dollar-free-value domain described at matchPlaceholder and
replAux. -/
def replacePlaceholderAll (k v text : String) : String :=
  (replAux k.data v.data text.length text.data).asString

/-- The dollar character, written by code point. -/
def dollar : Char := Char.ofNat 36

/-- A character that a regex matches literally and that cannot start or
extend a metacharacter or an invalid fragment: a letter, a digit or an
underscore.  On names of such characters the interpolated RegExp of the
source coincides with literal matching. -/
def plainNameChar (c : Char) : Bool := c.isAlphanum || c = '_'

/-- processTextWithVariables of useAppStore: fold the replacement over the
entries of the value map in iteration order. -/
def processTextWithVariables (text : String) (vars : List (String × String)) : String :=
  vars.foldl (fun processed kv => replacePlaceholderAll kv.1 kv.2 processed) text

/-- Message types of the store. -/
inductive MessageType where
  | regular : MessageType
  | thinking : MessageType
  | tool_call : MessageType
deriving DecidableEq

/-- A conversation message; the open metadata map of the source is not
modelled (no claim reads it). -/
structure Msg where
  id : String
  role : String
  content : String
  mtype : MessageType
deriving DecidableEq

/-- The store state read and written by the modelled actions: the system
prompt, the ordered messages, the detected-variable names, and the
transient output slot. -/
structure StoreSt where
  systemPrompt : String
  messages : List Msg
  detectedVariables : List String
  output : String
deriving DecidableEq

/-- A store with empty prompt, no messages, no variables, empty output. -/
def emptyStore : StoreSt :=
  { systemPrompt := "", messages := [], detectedVariables := [], output := "" }

/-- setSystemPrompt of useAppStore: store the prompt and set
detectedVariables to the spread of a Set over the previous names followed
by the names detected in the new prompt. -/
def setSystemPrompt (prompt : String) (s : StoreSt) : StoreSt :=
  { s with systemPrompt := prompt,
           detectedVariables := dedupFirst (s.detectedVariables ++ detectVariables prompt) }

/-- The allText of updateMessage: the system prompt and every message
content, joined with single spaces. -/
def joinedText (s : StoreSt) : String :=
  s.systemPrompt ++ " " ++ String.intercalate " " (s.messages.map (fun m => m.content))

/-- updateMessage of useAppStore for a content update: rewrite the content
of the matching message, then recompute detectedVariables from the joined
current text. -/
def updateMessageContent (id newContent : String) (s : StoreSt) : StoreSt :=
  let s1 : StoreSt :=
    { s with messages :=
        s.messages.map (fun m => if m.id = id then { m with content := newContent } else m) }
  { s1 with detectedVariables := detectVariables (joinedText s1) }

/-- The names whose placeholders occur in the current texts themselves: the
detect scan of the system prompt and of each message content separately. -/
def occurringVariables (s : StoreSt) : List String :=
  dedupFirst (detectVariables s.systemPrompt ++
    (s.messages.map (fun m => detectVariables m.content)).flatten)

/-- JS toLowerCase for the ASCII texts that occur. -/
def strToLower (s : String) : String := (s.data.map Char.toLower).asString

/-- Whether the pattern occurs as a contiguous run at any position. -/
def hasSubstrAux (pat : List Char) : List Char → Bool
  | [] => pat.isPrefixOf []
  | c :: cs => pat.isPrefixOf (c :: cs) || hasSubstrAux pat cs

/-- JS String.includes. -/
def strIncludes (s pat : String) : Bool := hasSubstrAux pat.data s.data

/-- The tool-call pattern block of pushOutputToMessages, written once here:
the source repeats the same condition verbatim in detectContentType,
isPushableContent and getFinalMessageType. -/
def toolCallPattern (c : String) : Bool :=
  (strIncludes c "tool_calls" && strIncludes c "[") ||
  (strIncludes c "\"function\"" && strIncludes c "\"name\"" && strIncludes c "\"arguments\"") ||
  (strStartsWith c "\x7b" && strIncludes c "\"type\": \"function\"") ||
  strIncludes c "\"tool_calls\"" ||
  strIncludes c "\"type\": \"tool_call\"" ||
  strIncludes c "\"tool_use\"" ||
  (strIncludes c "\"function_call\"" && strIncludes c "\"name\"") ||
  (strIncludes c "\"tool_use\"" && strIncludes c "\"name\"")

/-- The reasoning-announcing phrases of pushOutputToMessages, checked on
the lowercased text. -/
def reasoningPhrase (lower : String) : Bool :=
  strIncludes lower "reasoning_content" ||
  strIncludes lower "reasoning:" ||
  strIncludes lower "let me think" ||
  strIncludes lower "step by step" ||
  strIncludes lower "my thoughts:" ||
  strIncludes lower "thinking:" ||
  strIncludes lower "i need to think" ||
  strIncludes lower "let me analyze" ||
  strIncludes lower "first, let me" ||
  strIncludes lower "i should consider"

/-- detectContentType of pushOutputToMessages: trimmed text with a thinking
wrapper pair is thinking, then any reasoning phrase on the lowercase text
is thinking, then the tool-call pattern is a tool call, else regular; the
trimmed text is returned alongside. -/
def detectContentType (content : String) : MessageType × String :=
  let cleanContent := jsTrim content
  let lowerContent := strToLower cleanContent
  if strIncludes cleanContent "<think>" && strIncludes cleanContent "</think>" then
    (MessageType.thinking, cleanContent)
  else if reasoningPhrase lowerContent then (MessageType.thinking, cleanContent)
  else if toolCallPattern cleanContent then (MessageType.tool_call, cleanContent)
  else (MessageType.regular, cleanContent)

/-- isPushableContent of pushOutputToMessages: the tool-call pattern is
pushable, otherwise nonempty trimmed text free of every reasoning marker
(the wrapper open tag and the phrases, the latter on the lowercase text). -/
def isPushableContent (content : String) : Bool :=
  let cleanContent := jsTrim content
  toolCallPattern cleanContent ||
  (cleanContent.length > 0 &&
    !strIncludes (strToLower cleanContent) "reasoning_content" &&
    !strIncludes cleanContent "<think>" &&
    !strIncludes (strToLower cleanContent) "reasoning:" &&
    !strIncludes (strToLower cleanContent) "let me think" &&
    !strIncludes (strToLower cleanContent) "step by step" &&
    !strIncludes (strToLower cleanContent) "my thoughts:" &&
    !strIncludes (strToLower cleanContent) "thinking:" &&
    !strIncludes (strToLower cleanContent) "i need to think" &&
    !strIncludes (strToLower cleanContent) "let me analyze" &&
    !strIncludes (strToLower cleanContent) "first, let me" &&
    !strIncludes (strToLower cleanContent) "i should consider")

/-- getFinalMessageType of pushOutputToMessages: the tool-call pattern on
the trimmed text, else regular. -/
def getFinalMessageType (content : String) : MessageType :=
  if toolCallPattern (jsTrim content) then MessageType.tool_call else MessageType.regular

/-- pushOutputToMessages of useAppStore: no-op on blank output, no-op on
unpushable output, otherwise append an assistant message with the trimmed
content and the final type.  The fresh random id is passed in; the metadata
map of the source is not modelled. -/
def pushOutputToMessages (freshId : String) (s : StoreSt) : StoreSt :=
  if jsTrim s.output = "" then s
  else if !isPushableContent s.output then s
  else
    { s with messages := s.messages ++
        [{ id := freshId, role := "assistant", content := (detectContentType s.output).2,
           mtype := getFinalMessageType s.output }] }


/-- The replacement scan at a canonical fuel, the input length: the fuel
never runs out there because every step consumes at least one character. -/
def replaceChars (k v cs : List Char) : List Char := replAux k v cs.length cs

/-- A content frame carrying the delta Hel. -/
def frameHel : String := "data: \x7b\"choices\":[\x7b\"delta\":\x7b\"content\":\"Hel\"\x7d\x7d]\x7d"

/-- A content frame carrying the delta lo. -/
def frameLo : String := "data: \x7b\"choices\":[\x7b\"delta\":\x7b\"content\":\"lo\"\x7d\x7d]\x7d"

/-- A content frame carrying the delta a. -/
def frameA : String := "data: \x7b\"choices\":[\x7b\"delta\":\x7b\"content\":\"a\"\x7d\x7d]\x7d"

/-- A Date.now oracle standing at one elapsed second. -/
def clk1 : ℕ → ℕ := fun _ => 1000

/-- A Date.now oracle standing at zero elapsed time. -/
def clk0 : ℕ → ℕ := fun _ => 0

/-- The reference stream of the specification: the Hel and lo content
frames and the DONE sentinel, each on its own line, in one chunk. -/
def c2chunk : String := frameHel ++ "\n" ++ frameLo ++ "\n" ++ "data: [DONE]\n"

/-- The reference stream split into one chunk per frame, for cancellation
between reads. -/
def c5chunks : List String := [frameHel ++ "\n", frameLo ++ "\n", "data: [DONE]\n"]

/-- Ten content frames of one token each followed by the DONE sentinel:
the running count reaches exactly ten tokens during the loop. -/
def c7chunk : String := String.join (List.replicate 10 (frameA ++ "\n")) ++ "data: [DONE]\n"

/-- A single content frame with no DONE sentinel: the reader reports end of
stream first. -/
def c10chunks : List String := [frameHel ++ "\n"]

/-- The tool-call reference text of the specification. -/
def toolJsonText : String :=
  "\x7b\"tool_calls\": [\x7b\"function\":\x7b\"name\":\"x\",\"arguments\":\"\x7b\x7d\"\x7d\x7d]\x7d"

/-- The delta branches emit only token and metrics callbacks. -/
theorem processData_all_notCompleteOrError (clk : ℕ → ℕ) (fuel : ℕ) (s : StreamSt) (d : Json) :
    (processData clk fuel s d).2.all notCompleteOrError = true := by
  dsimp only [processData]
  split_ifs <;> simp [notCompleteOrError, SEvent.isComplete, SEvent.isError]

/-- A line that does not return early emits no completion and no error. -/
theorem processLine_all_notCompleteOrError (clk : ℕ → ℕ) (s : StreamSt) (l : String)
    (h : (processLine clk s l).2.2 = false) :
    (processLine clk s l).2.1.all notCompleteOrError = true := by
  dsimp only [processLine] at h ⊢
  by_cases h1 : jsTrim l = ""
  · simp [h1]
  by_cases h2 : jsTrim l = "data: [DONE]"
  · simp [h1, h2] at h
  by_cases h3 : strStartsWith (jsTrim l) "data: "
  · simp only [h1, h2, h3, if_false, if_true, ite_true, ite_false] at h ⊢
    cases hp : jsonParse (strDropChars (jsTrim l) 6) with
    | none => simp [hp]
    | some d =>
      simp only [hp]
      exact processData_all_notCompleteOrError clk ((jsTrim l).length + 1) s d
  · simp [h1, h2, h3]

/-- A line loop that does not return early emits no completion and no error. -/
theorem processLines_all_notCompleteOrError (clk : ℕ → ℕ) (ls : List String) :
    ∀ s : StreamSt, (processLines clk s ls).2.2 = false →
      (processLines clk s ls).2.1.all notCompleteOrError = true := by
  induction ls with
  | nil => intro s _; simp [processLines]
  | cons l ls ih =>
    intro s h
    dsimp only [processLines] at h ⊢
    by_cases hr : (processLine clk s l).2.2
    · rw [if_pos hr] at h
      exact absurd hr (by simp [h])
    · rw [if_neg hr] at h ⊢
      simp only [Bool.not_eq_true] at hr
      simp only [List.all_append, Bool.and_eq_true]
      refine And.intro ?_ ?_
      · exact processLine_all_notCompleteOrError clk s l hr
      · exact ih (processLine clk s l).1 h

/-- A read loop that does not return early emits no completion and no error. -/
theorem chunkFold_all_notCompleteOrError (clk : ℕ → ℕ) (chs : List String) :
    ∀ c : ChunkSt, (chunkFold clk c chs).2.2 = false →
      (chunkFold clk c chs).2.1.all notCompleteOrError = true := by
  induction chs with
  | nil => intro c _; simp [chunkFold]
  | cons ch chs ih =>
    intro c h
    dsimp only [chunkFold, processChunk] at h ⊢
    by_cases hr : (processLines clk c.st ((splitLines (c.buffer ++ ch)).dropLast)).2.2
    · rw [if_pos hr] at h
      exact absurd hr (by simpa using h)
    · rw [if_neg hr] at h ⊢
      simp only [Bool.not_eq_true] at hr
      simp only [List.all_append, Bool.and_eq_true]
      refine And.intro ?_ ?_
      · exact processLines_all_notCompleteOrError clk _ _ hr
      · exact ih _ (by simpa using h)

/-- Events that are all neither completion nor error filter to nothing under
the completion-or-error test. -/
theorem all_notCompleteOrError_filter {l : List SEvent}
    (h : l.all notCompleteOrError = true) :
    l.filter (fun e => e.isComplete || e.isError) = [] := by
  rw [List.filter_eq_nil_iff]
  intro e he
  have := (List.all_eq_true.mp h) e he
  simp [notCompleteOrError] at this
  simp [this]

/-- Events that are all neither completion nor error contain no completion. -/
theorem all_notCompleteOrError_filterComplete {l : List SEvent}
    (h : l.all notCompleteOrError = true) :
    l.filter SEvent.isComplete = [] := by
  rw [List.filter_eq_nil_iff]
  intro e he
  have := (List.all_eq_true.mp h) e he
  simp [notCompleteOrError] at this
  simp [this]

/-- String coercion of a JSON string needs no fuel. -/
theorem jsToStringF_str (f : ℕ) (s : String) : jsToStringF f (Json.str s) = s := by
  cases f <;> rfl

/-- Dropping a matched run never lengthens a list. -/
theorem length_dropWhile_le' (p : Char → Bool) (l : List Char) :
    (l.dropWhile p).length ≤ l.length := by
  induction l with
  | nil => simp
  | cons a l ih =>
    rw [List.dropWhile_cons]
    split_ifs
    · exact Nat.le_succ_of_le ih
    · simp

/-- Dropping a matched run skips over a fully matching prefix. -/
theorem dropWhile_append_all (p : Char → Bool) (l1 l2 : List Char) (h : ∀ c ∈ l1, p c) :
    (l1 ++ l2).dropWhile p = l2.dropWhile p := by
  induction l1 with
  | nil => rfl
  | cons c l1 ih =>
    rw [List.cons_append, List.dropWhile_cons, if_pos (h c (by simp))]
    exact ih (fun d hd => h d (by simp [hd]))

/-- A list is a prefix of itself followed by anything. -/
theorem isPrefixOf_self_append (k x : List Char) : k.isPrefixOf (k ++ x) = true := by
  induction k with
  | nil => simp [List.isPrefixOf]
  | cons c k ih => simpa [List.isPrefixOf] using ih

/-- The placeholder matcher fails wherever no left brace starts. -/
theorem matchPlaceholder_none_of_head (k : List Char) (c : Char) (cs : List Char)
    (h : c ≠ lbrace) : matchPlaceholder k (c :: cs) = none := by
  cases cs with
  | nil => rfl
  | cons c2 rest => simp [matchPlaceholder, h]

/-- A successful placeholder match consumes at least one character. -/
theorem matchPlaceholder_some_length (k cs r : List Char)
    (h : matchPlaceholder k cs = some r) : r.length < cs.length := by
  match cs with
  | [] => cases h
  | [c] => cases h
  | c1 :: c2 :: rest =>
    dsimp only [matchPlaceholder] at h
    split_ifs at h with h1 h2
    · revert h
      cases hd : ((rest.dropWhile Char.isWhitespace).drop k.length).dropWhile Char.isWhitespace with
      | nil => intro h; cases h
      | cons d1 tl =>
        cases tl with
        | nil => intro h; cases h
        | cons d2 r2 =>
          intro h
          dsimp only at h
          split_ifs at h with h3
          cases h
          have e1 : r.length + 2 ≤ ((rest.dropWhile Char.isWhitespace).drop k.length).length := by
            have := length_dropWhile_le' Char.isWhitespace
              ((rest.dropWhile Char.isWhitespace).drop k.length)
            rw [hd] at this
            simpa using this
          have e2 : ((rest.dropWhile Char.isWhitespace).drop k.length).length ≤
              (rest.dropWhile Char.isWhitespace).length := by
            rw [List.length_drop]
            omega
          have e3 : (rest.dropWhile Char.isWhitespace).length ≤ rest.length :=
            length_dropWhile_le' Char.isWhitespace rest
          simp only [List.length_cons]
          omega

/-- The replacement scan is the identity on the empty input at any fuel. -/
theorem replAux_nil (k v : List Char) (f : ℕ) : replAux k v f [] = [] := by
  cases f <;> rfl

/-- The replacement scan does not depend on the fuel once the fuel covers
the input length. -/
theorem replAux_fuel_eq (k v : List Char) :
    ∀ n f g cs, List.length cs ≤ n → List.length cs ≤ f → List.length cs ≤ g →
      replAux k v f cs = replAux k v g cs := by
  intro n
  induction n with
  | zero =>
    intro f g cs hn _ _
    have : cs = [] := List.eq_nil_of_length_eq_zero (Nat.le_zero.mp hn)
    subst this
    rw [replAux_nil, replAux_nil]
  | succ n ih =>
    intro f g cs hn hf hg
    cases cs with
    | nil => rw [replAux_nil, replAux_nil]
    | cons c cs =>
      simp only [List.length_cons] at hn hf hg
      match f, g with
      | f + 1, g + 1 =>
        dsimp only [replAux]
        cases hm : matchPlaceholder k (c :: cs) with
        | none =>
          dsimp only
          rw [ih f g cs (by omega) (by omega) (by omega)]
        | some rest =>
          have hlt := matchPlaceholder_some_length k (c :: cs) rest hm
          simp only [List.length_cons] at hlt
          dsimp only
          rw [ih f g rest (by omega) (by omega) (by omega)]

/-- The replacement scan copies a brace-free prefix unchanged. -/
theorem replaceChars_append_no_lbrace (k v pre rest : List Char)
    (h : ∀ c ∈ pre, c ≠ lbrace) :
    replaceChars k v (pre ++ rest) = pre ++ replaceChars k v rest := by
  induction pre with
  | nil => simp
  | cons c pre ih =>
    have hc : c ≠ lbrace := h c (by simp)
    have hrec := ih (fun d hd => h d (by simp [hd]))
    dsimp only [replaceChars] at hrec ⊢
    simp only [List.cons_append, List.length_cons]
    dsimp only [replAux]
    rw [matchPlaceholder_none_of_head k c (pre ++ rest) hc]
    rw [hrec]

/-- The placeholder matcher accepts a well-formed placeholder head-on: two
left braces, whitespace, the name, whitespace, two right braces. -/
theorem matchPlaceholder_hit (k ws1 ws2 suf : List Char)
    (hws1 : ∀ c ∈ ws1, Char.isWhitespace c) (hws2 : ∀ c ∈ ws2, Char.isWhitespace c)
    (hk : ∀ c ∈ k, ¬ Char.isWhitespace c) (hk0 : k ≠ []) :
    matchPlaceholder k
        (lbrace :: lbrace :: (ws1 ++ (k ++ (ws2 ++ rbrace :: rbrace :: suf)))) = some suf := by
  dsimp only [matchPlaceholder]
  rw [if_pos ⟨rfl, rfl⟩]
  have hr1 : (ws1 ++ (k ++ (ws2 ++ rbrace :: rbrace :: suf))).dropWhile Char.isWhitespace =
      k ++ (ws2 ++ rbrace :: rbrace :: suf) := by
    rw [dropWhile_append_all Char.isWhitespace ws1 _ hws1]
    cases k with
    | nil => exact absurd rfl hk0
    | cons kh kt =>
      rw [List.cons_append, List.dropWhile_cons,
        if_neg (by simpa using hk kh (by simp))]
  rw [hr1, if_pos (isPrefixOf_self_append k _)]
  rw [List.drop_left]
  rw [dropWhile_append_all Char.isWhitespace ws2 _ hws2]
  rw [List.dropWhile_cons, if_neg (by decide)]
  dsimp only
  rw [if_pos ⟨rfl, rfl⟩]

/-- The replacement scan rewrites a well-formed placeholder at the head and
continues behind it. -/
theorem replaceChars_hit (k v ws1 ws2 suf : List Char)
    (hws1 : ∀ c ∈ ws1, Char.isWhitespace c) (hws2 : ∀ c ∈ ws2, Char.isWhitespace c)
    (hk : ∀ c ∈ k, ¬ Char.isWhitespace c) (hk0 : k ≠ []) :
    replaceChars k v (lbrace :: lbrace :: (ws1 ++ (k ++ (ws2 ++ rbrace :: rbrace :: suf)))) =
      v ++ replaceChars k v suf := by
  dsimp only [replaceChars]
  simp only [List.length_cons]
  dsimp only [replAux]
  rw [matchPlaceholder_hit k ws1 ws2 suf hws1 hws2 hk hk0]
  dsimp only
  have hfuel : replAux k v ((ws1 ++ (k ++ (ws2 ++ rbrace :: rbrace :: suf))).length + 1) suf =
      replAux k v suf.length suf := by
    refine replAux_fuel_eq k v suf.length _ _ suf le_rfl ?_ le_rfl
    simp [List.length_append]
    omega
  rw [hfuel]

/-- The malformed line of the specification leaves any state untouched and
emits nothing. -/
theorem processLine_skips_malformed (clk : ℕ → ℕ) (s : StreamSt) :
    processLine clk s "data: \x7bnot valid json\x7d" = (s, [], false) := rfl

/-- A letter, digit or underscore is not whitespace. -/
theorem plainNameChar_not_whitespace (c : Char) (h : plainNameChar c = true) :
    ¬ Char.isWhitespace c = true := by
  intro hw
  simp only [Char.isWhitespace] at hw
  rcases Bool.or_eq_true_iff.mp hw with h1 | h1
  · rcases Bool.or_eq_true_iff.mp h1 with h2 | h2
    · rcases Bool.or_eq_true_iff.mp h2 with h3 | h3
      · rw [show c = ' ' from by simpa using h3] at h
        exact absurd h (by decide)
      · rw [show c = Char.ofNat 9 from by simpa using h3] at h
        exact absurd h (by decide)
    · rw [show c = Char.ofNat 13 from by simpa using h2] at h
      exact absurd h (by decide)
  · rw [show c = Char.ofNat 10 from by simpa using h1] at h
    exact absurd h (by decide)

/-- C1 counterexample: two successive streamCompletion calls leave two live
(never aborted) controller handles, and the first handle is still not
aborted afterwards — the previous generation is not cancelled, refuting the
claim that at most one live handle ever exists. -/
theorem previousHandleNotCancelled_cex :
    liveHandleCount (newAbortController (newAbortController initApiServiceSt)) = 2 ∧
      (newAbortController (newAbortController initApiServiceSt)).created.get? 0 = some false := by
  exact ⟨by decide, by decide⟩

/-- C1 as amended: when streamCompletion runs while an unaborted controller
is referenced, it does not abort that controller — it only overwrites the
reference with a fresh unaborted one, so the new handle is the single
referenced active handle while the count of live handles grows by one. -/
theorem newControllerDoesNotAbortPrevious (s : ApiServiceSt) (i : ℕ)
    (h1 : s.current = some i) (h2 : s.created.get? i = some false) :
    (newAbortController s).created.get? i = some false ∧
      (newAbortController s).current = some s.created.length ∧
      isGenerating (newAbortController s) = true ∧
      liveHandleCount (newAbortController s) = liveHandleCount s + 1 := by
  refine ⟨?_, rfl, rfl, ?_⟩
  · dsimp only [newAbortController]
    have hi : i < s.created.length := by
      by_contra hlt
      push_neg at hlt
      rw [List.get?_eq_none.mpr hlt] at h2
      cases h2
    rw [List.get?_append hi]
    exact h2
  · dsimp only [liveHandleCount, newAbortController]
    rw [List.filter_append]
    simp

/-- C1 witness: the amended statement at a service holding one live
referenced controller. -/
theorem newControllerDoesNotAbortPrevious_witness :
    ((newAbortController { created := [false], current := some 0 }).created.get? 0 = some false ∧
      (newAbortController { created := [false], current := some 0 }).current = some 1 ∧
      isGenerating (newAbortController { created := [false], current := some 0 }) = true ∧
      liveHandleCount (newAbortController { created := [false], current := some 0 }) =
        liveHandleCount { created := [false], current := some 0 } + 1) := by
  have := newControllerDoesNotAbortPrevious { created := [false], current := some 0 } 0 rfl rfl
  simpa using this

/-- C2 counterexample: on the reference stream the second token callback
does not carry the accumulated text Hello, refuting the claim that token
callbacks carry the cumulative accumulated string. -/
theorem tokenCallbacksCarryDeltas_cex :
    (processStream clk1 [c2chunk]).2 ≠
      [SEvent.token "Hel", SEvent.token "Hello", SEvent.complete "Hello"] := by decide

/-- C2 as amended: on the reference stream the engine emits exactly two
token callbacks carrying the deltas Hel then lo (the callback carries only
the new fragment, not the accumulated text), followed by exactly one
completion callback carrying the accumulated Hello. -/
theorem tokenCallbacksCarryDeltas :
    (processStream clk1 [c2chunk]).2 =
      [SEvent.token "Hel", SEvent.token "lo", SEvent.complete "Hello"] := by rfl

/-- C3 counterexample: a placeholder whose name has no entry in the value
map is left as the literal placeholder text, not replaced by the empty
string, refuting the unresolved-names clause of the claim. -/
theorem unresolvedPlaceholderLeftLiteral_cex :
    processTextWithVariables "\x7b\x7bx\x7d\x7d" [] = "\x7b\x7bx\x7d\x7d" ∧
      processTextWithVariables "\x7b\x7bx\x7d\x7d" [] ≠ "" := by
  exact ⟨by decide, by decide⟩

/-- C3 as amended: substitution never touches text whose names have no
entries (they stay literal), and for a plain name with an entry (nonempty,
letters, digits and underscores — where the interpolated regex of the
source matches literally and never throws) whose value is free of dollar
sequences (where the string replacement splices literally), every
whitespace-tolerant placeholder occurrence is replaced by the value,
including the empty value; shown for a brace-free prefix, whitespace
paddings, and an arbitrary suffix on which the replacement continues. -/
theorem substitutionSpec (t PRE WS1 K WS2 V SUF : String)
    (h1 : ∀ c ∈ PRE.data, c ≠ lbrace)
    (h2 : ∀ c ∈ WS1.data, Char.isWhitespace c)
    (h3 : ∀ c ∈ WS2.data, Char.isWhitespace c)
    (h4 : ∀ c ∈ K.data, plainNameChar c)
    (h5 : K ≠ "")
    (h6 : ∀ c ∈ V.data, c ≠ dollar) :
    processTextWithVariables t [] = t ∧
      processTextWithVariables (PRE ++ "\x7b\x7b" ++ WS1 ++ K ++ WS2 ++ "\x7d\x7d" ++ SUF)
          [(K, V)] =
        PRE ++ V ++ processTextWithVariables SUF [(K, V)] := by
  refine ⟨rfl, ?_⟩
  have hkd : K.data ≠ [] := by
    intro h
    exact h5 (String.ext h)
  have hlb : ("\x7b\x7b" : String).data = [lbrace, lbrace] := by decide
  have hrb : ("\x7d\x7d" : String).data = [rbrace, rbrace] := by decide
  have hdata : (PRE ++ "\x7b\x7b" ++ WS1 ++ K ++ WS2 ++ "\x7d\x7d" ++ SUF).data =
      PRE.data ++ (lbrace :: lbrace ::
        (WS1.data ++ (K.data ++ (WS2.data ++ rbrace :: rbrace :: SUF.data)))) := by
    simp [String.data_append, hlb, hrb]
    exact ⟨by decide, by decide⟩
  have h4ws : ∀ c ∈ K.data, ¬ Char.isWhitespace c := fun c hc =>
    plainNameChar_not_whitespace c (h4 c hc)
  have key : replaceChars K.data V.data
      (PRE ++ "\x7b\x7b" ++ WS1 ++ K ++ WS2 ++ "\x7d\x7d" ++ SUF).data =
      PRE.data ++ (V.data ++ replaceChars K.data V.data SUF.data) := by
    rw [hdata]
    rw [replaceChars_append_no_lbrace _ _ _ _ h1]
    rw [replaceChars_hit K.data V.data WS1.data WS2.data SUF.data h2 h3 h4ws hkd]
  calc processTextWithVariables (PRE ++ "\x7b\x7b" ++ WS1 ++ K ++ WS2 ++ "\x7d\x7d" ++ SUF)
          [(K, V)]
      = (replaceChars K.data V.data
          (PRE ++ "\x7b\x7b" ++ WS1 ++ K ++ WS2 ++ "\x7d\x7d" ++ SUF).data).asString := rfl
    _ = (PRE.data ++ (V.data ++ replaceChars K.data V.data SUF.data)).asString := by rw [key]
    _ = ((PRE.data ++ V.data) ++ replaceChars K.data V.data SUF.data).asString := by
          rw [List.append_assoc]
    _ = PRE ++ V ++ processTextWithVariables SUF [(K, V)] := rfl

/-- C3 witness: the amended statement at the text ab, a padded placeholder
of the plain name x, the dollar-free value Y and a trailing second
placeholder. -/
theorem substitutionSpec_witness :
    processTextWithVariables "q" [] = "q" ∧
      processTextWithVariables
          ("ab" ++ "\x7b\x7b" ++ " " ++ "x" ++ "" ++ "\x7d\x7d" ++ "\x7b\x7bx\x7d\x7d")
          [("x", "Y")] =
        "ab" ++ "Y" ++ processTextWithVariables "\x7b\x7bx\x7d\x7d" [("x", "Y")] :=
  substitutionSpec "q" "ab" " " "x" "" "Y" "\x7b\x7bx\x7d\x7d"
    (by decide) (by decide) (by decide) (by decide) (by decide) (by decide)

/-- C4 counterexample: after the system prompt that read two-brace a
two-brace is replaced by the word hello, the store still lists a as a
detected variable although no placeholder occurs anywhere, refuting the
claim that detectedVariables always equals the names occurring in the
current texts. -/
theorem staleDetectedVariable_cex :
    (setSystemPrompt "hello" (setSystemPrompt "\x7b\x7ba\x7d\x7d" emptyStore)).detectedVariables
        = ["a"] ∧
      occurringVariables (setSystemPrompt "hello" (setSystemPrompt "\x7b\x7ba\x7d\x7d" emptyStore))
        = [] := by
  exact ⟨by decide, by decide⟩

/-- C4 as amended: updateMessage with a content change recomputes
detectedVariables as a pure function of the current joined text, but
setSystemPrompt only unions the previous set with the names detected in the
new prompt, so names whose last occurrence was removed persist. -/
theorem detectedVariablesRecompute (s : StoreSt) (prompt id newContent : String) :
    (setSystemPrompt prompt s).detectedVariables =
        dedupFirst (s.detectedVariables ++ detectVariables prompt) ∧
      (updateMessageContent id newContent s).detectedVariables =
        detectVariables (joinedText (updateMessageContent id newContent s)) :=
  ⟨rfl, rfl⟩

/-- C5: a generation aborted after some streamed chunks and before the DONE
sentinel invokes neither the completion nor the error callback (the abort
is recognised and suppressed), and stopGeneration always leaves the
controller reference null so a new generation can start. -/
theorem cancellationSuppressed (clk : ℕ → ℕ) (chunks : List String) (k : ℕ)
    (h1 : 0 < ((chunkFold clk initChunkSt (chunks.take k)).2.1.filter SEvent.isToken).length)
    (h2 : (chunkFold clk initChunkSt (chunks.take k)).2.2 = false) :
    (streamCompletionRun clk (FetchOutcome.okAborted chunks k)).filter
        (fun e => e.isComplete || e.isError) = [] ∧
      ∀ s : ApiServiceSt, (stopGeneration s).current = none := by
  constructor
  · have hall := chunkFold_all_notCompleteOrError clk (chunks.take k) initChunkSt h2
    dsimp only [streamCompletionRun]
    rw [List.filter_cons_of_neg]
    · exact all_notCompleteOrError_filter hall
    · simp [SEvent.isComplete, SEvent.isError]
  · intro s
    cases hc : s.current <;> simp [stopGeneration, hc]

/-- C5 witness: the reference stream aborted after its first chunk, with
one token already processed and no DONE sentinel seen. -/
theorem cancellationSuppressed_witness :
    (streamCompletionRun clk1 (FetchOutcome.okAborted c5chunks 1)).filter
        (fun e => e.isComplete || e.isError) = [] ∧
      ∀ s : ApiServiceSt, (stopGeneration s).current = none :=
  cancellationSuppressed clk1 c5chunks 1 (by decide) (by decide)

/-- C6: a stream with the malformed line between any surrounding lines
produces exactly the state, callbacks and outcome of the same stream
without that line — the malformed frame is skipped, is not fatal, and
surfaces no error. -/
theorem malformedLineSkipped (clk : ℕ → ℕ) (s : StreamSt) (l1 l2 : List String) :
    processLines clk s (l1 ++ "data: \x7bnot valid json\x7d" :: l2) =
      processLines clk s (l1 ++ l2) := by
  induction l1 generalizing s with
  | nil =>
    simp only [List.nil_append]
    conv_lhs => rw [processLines]
    rw [processLine_skips_malformed]
    simp
  | cons l l1 ih =>
    simp only [List.cons_append]
    dsimp only [processLines]
    by_cases hr : (processLine clk s l).2.2
    · rw [if_pos hr, if_pos hr]
    · rw [if_neg hr, if_neg hr, ih]

/-- C7 counterexample: ten content frames drive the running count to
exactly ten tokens (forty quarter tokens), yet no metrics callback is ever
emitted, refuting the claim that every delta reaching a multiple of ten
fires one. -/
theorem contentDeltasNeverEmitMetrics_cex :
    (processStream clk1 [c7chunk]).2.filter SEvent.isMetrics = [] ∧
      (processStream clk1 [c7chunk]).1.st.tokenQuarters = 40 := by
  exact ⟨by decide, by decide⟩

/-- C7 as amended: during the loop, metrics fire only in the tool-call
branch — one frame emits a metrics callback exactly when its tool-call
delta is truthy and the updated count is a multiple of ten, and then the
payload is the rounded tokens-per-second over the elapsed time with the
updated total; content deltas alone never emit metrics. -/
theorem metricsOnlyOnToolDeltas (clk : ℕ → ℕ) (fuel : ℕ) (s : StreamSt) (d : Json) :
    (processData clk fuel s d).2.filter SEvent.isMetrics =
      (if truthyOpt (toolCallsDelta d) &&
          quartersMultipleOfTen (processData clk fuel s d).1.tokenQuarters then
        [SEvent.metrics
          (rateHundredths (processData clk fuel s d).1.tokenQuarters (clk s.timeIdx))
          (processData clk fuel s d).1.tokenQuarters]
      else []) := by
  dsimp only [processData]
  by_cases h1 : truthyOpt (contentDelta d) <;>
    by_cases h2 : truthyOpt (toolCallsDelta d) <;>
      simp only [h1, h2, if_true, if_false, ite_true, ite_false, Bool.true_and,
        Bool.false_and] <;>
        first
          | (split_ifs with h3 <;> simp_all [SEvent.isMetrics])
          | simp_all [SEvent.isMetrics]

/-- C8 counterexample: a non-2xx response whose body is not valid JSON gets
the message Unknown error injected by the rejected body parse, not the
generic status line, refuting the otherwise-generic clause of the claim. -/
theorem invalidJsonBodyMessage_cex :
    httpErrorMessage 500 "Internal Server Error" "not json" = "Unknown error" ∧
      httpErrorMessage 500 "Internal Server Error" "not json" ≠
        "HTTP 500: Internal Server Error" := by
  exact ⟨by decide, by decide⟩

/-- C8 as amended: a non-2xx response always reaches the error callback
after onStart; when the body parses as JSON the message is its truthy
error.message, a parsed body without one yields the generic status line,
and an unparseable body yields the injected Unknown error text. -/
theorem httpErrorMessageSpec (clk : ℕ → ℕ) (status : ℕ) (stx body : String) :
    streamCompletionRun clk (FetchOutcome.httpErr status stx body) =
        [SEvent.start, SEvent.error (httpErrorMessage status stx body)] ∧
      (jsonParse body = none → httpErrorMessage status stx body = "Unknown error") ∧
      (∀ j, jsonParse body = some j →
        httpErrorMessage status stx body =
          match (j.getField "error").bind (fun e => e.getField "message") with
          | some m =>
            if m.truthy then jsToString (body.length + 1) m
            else "HTTP " ++ toString status ++ ": " ++ stx
          | none => "HTTP " ++ toString status ++ ": " ++ stx) := by
  refine ⟨rfl, ?_, ?_⟩
  · intro h
    dsimp only [httpErrorMessage]
    rw [h]
    exact jsToStringF_str (body.length + 1) "Unknown error"
  · intro j h
    dsimp only [httpErrorMessage]
    rw [h]

/-- C8 witness: a 404 response whose JSON body carries an error.message
field produces exactly that message. -/
theorem httpErrorMessageSpec_witness :
    httpErrorMessage 404 "Not Found" "\x7b\"error\":\x7b\"message\":\"bad key\"\x7d\x7d" =
      "bad key" := by
  have h := (httpErrorMessageSpec clk1 404 "Not Found"
      "\x7b\"error\":\x7b\"message\":\"bad key\"\x7d\x7d").2.2
      (Json.obj [("error", Json.obj [("message", Json.str "bad key")])]) (by rfl)
  rw [h]
  rfl

/-- C9: the push-path reference cases — the empty string classifies regular,
is not pushable and push is a no-op; the tool-call reference text
classifies tool-call and is pushable; the step-by-step reasoning text
classifies thinking and is not pushable; the plain answer classifies
regular and is pushable. -/
theorem classifierReferenceCases :
    (detectContentType "").1 = MessageType.regular ∧
      isPushableContent "" = false ∧
      pushOutputToMessages "m1" emptyStore = emptyStore ∧
      (detectContentType toolJsonText).1 = MessageType.tool_call ∧
      isPushableContent toolJsonText = true ∧
      (detectContentType "Let me think step by step about this...").1 = MessageType.thinking ∧
      isPushableContent "Let me think step by step about this..." = false ∧
      (detectContentType "The answer is 42.").1 = MessageType.regular ∧
      isPushableContent "The answer is 42." = true := by
  refine ⟨by decide, by decide, by decide, by decide, by decide, by decide, by decide,
    by decide, by decide⟩

/-- C10: when the reader reports end of stream without a DONE sentinel the
engine still finishes successfully — the body events carry no completion,
then exactly one final metrics callback is emitted (zero rate when no time
elapsed) followed by one completion callback with the full accumulated
text. -/
theorem eofCompletes (clk : ℕ → ℕ) (chunks : List String)
    (h : (chunkFold clk initChunkSt chunks).2.2 = false) :
    (processStream clk chunks).2 =
      (chunkFold clk initChunkSt chunks).2.1 ++
        [SEvent.metrics
            (if 0 < clk (chunkFold clk initChunkSt chunks).1.st.timeIdx then
              rateHundredths (chunkFold clk initChunkSt chunks).1.st.tokenQuarters
                (clk (chunkFold clk initChunkSt chunks).1.st.timeIdx)
            else 0)
            (chunkFold clk initChunkSt chunks).1.st.tokenQuarters,
          SEvent.complete (chunkFold clk initChunkSt chunks).1.st.fullResponse] ∧
      (chunkFold clk initChunkSt chunks).2.1.filter SEvent.isComplete = [] ∧
      (clk (chunkFold clk initChunkSt chunks).1.st.timeIdx = 0 →
        (if 0 < clk (chunkFold clk initChunkSt chunks).1.st.timeIdx then
          rateHundredths (chunkFold clk initChunkSt chunks).1.st.tokenQuarters
            (clk (chunkFold clk initChunkSt chunks).1.st.timeIdx)
        else 0) = 0) := by
  refine And.intro ?_ (And.intro ?_ ?_)
  · dsimp only [processStream]
    rw [if_neg (by simp [h])]
  · exact all_notCompleteOrError_filterComplete
      (chunkFold_all_notCompleteOrError clk chunks initChunkSt h)
  · intro h0
    rw [h0]
    simp

/-- C10 witness: a single content frame with no sentinel at zero elapsed
time — the final metrics callback reports a zero rate and the completion
carries the accumulated text. -/
theorem eofCompletes_witness :
    (processStream clk0 c10chunks).2 =
      (chunkFold clk0 initChunkSt c10chunks).2.1 ++
        [SEvent.metrics
            (if 0 < clk0 (chunkFold clk0 initChunkSt c10chunks).1.st.timeIdx then
              rateHundredths (chunkFold clk0 initChunkSt c10chunks).1.st.tokenQuarters
                (clk0 (chunkFold clk0 initChunkSt c10chunks).1.st.timeIdx)
            else 0)
            (chunkFold clk0 initChunkSt c10chunks).1.st.tokenQuarters,
          SEvent.complete (chunkFold clk0 initChunkSt c10chunks).1.st.fullResponse] ∧
      (chunkFold clk0 initChunkSt c10chunks).2.1.filter SEvent.isComplete = [] ∧
      (clk0 (chunkFold clk0 initChunkSt c10chunks).1.st.timeIdx = 0 →
        (if 0 < clk0 (chunkFold clk0 initChunkSt c10chunks).1.st.timeIdx then
          rateHundredths (chunkFold clk0 initChunkSt c10chunks).1.st.tokenQuarters
            (clk0 (chunkFold clk0 initChunkSt c10chunks).1.st.timeIdx)
        else 0) = 0) :=
  eofCompletes clk0 c10chunks (by decide)
